import Mathlib

/-!
Shallow embedding of `active_bom.py` (BOM pricing script).

Python strings are modelled as Lean `String` / `List Char`; Python floats that
only carry decimal money/voltage values are modelled as `ℚ`; Python dicts with
a fixed key universe are modelled as structures of `Option` fields, with
`dict.update` as a field-wise right-biased merge; functions that can raise are
`Except String`; the HTTP catalog collaborator is passed in as a function from
keyword to response; file-system caches and wall-clock time are passed
explicitly.
-/

/-- Python `sub in s` on strings. -/
def containsSub (s pat : String) : Bool := decide (pat.data <:+: s.data)

/-- Python dict lookup `m[k]` (as an `Option`), for a literal dict given as an
association list. -/
def lookupTab {α β : Type} [DecidableEq α] (m : List (α × β)) (k : α) : Option β :=
  (m.find? (fun kv => decide (kv.1 = k))).map (fun kv => kv.2)

/-- Leftmost-match scan: Python `re.search` tries each start position left to
right; `f` decides whether the pattern matches at the head of a suffix and
returns the captured text. -/
def scanFirst {α : Type} (f : List Char → Option α) : List Char → Option α
  | [] => f []
  | l@(_ :: t) =>
    match f l with
    | some r => some r
    | none => scanFirst f t

/-- Match of `([0-9]{4})` at the start of a suffix. -/
def fourDigitsAt : List Char → Option (List Char)
  | a :: b :: c :: d :: _ =>
    if a.isDigit && b.isDigit && c.isDigit && d.isDigit then some [a, b, c, d] else none
  | _ => none

/-- Python `re.search(r"([0-9]{4})", s)`: the first four-consecutive-digit substring. -/
def searchFourDigits (l : List Char) : Option (List Char) := scanFirst fourDigitsAt l

/-- Character class `[0-9.]`. -/
def isNumChar (c : Char) : Bool := c.isDigit || c == '.'

/-- Character class `[kΩ]`. -/
def isKOhmChar (c : Char) : Bool := c == 'k' || c == 'Ω'

/-- Match of `±1% ([0-9.]+[kΩ]+)` at the start of a suffix.  The two character
classes are disjoint, so greedy maximal munch agrees with regex backtracking. -/
def resistorValueAt : List Char → Option (List Char)
  | '±' :: '1' :: '%' :: ' ' :: rest =>
    let num := rest.takeWhile isNumChar
    let rest2 := rest.dropWhile isNumChar
    let unit := rest2.takeWhile isKOhmChar
    if num.isEmpty || unit.isEmpty then none else some (num ++ unit)
  | _ => none

/-- Python `re.search(r"±1% ([0-9.]+[kΩ]+)", s).group(1)`. -/
def searchResistorValue (l : List Char) : Option (List Char) := scanFirst resistorValueAt l

/-- Match of `(\d+\.?\d*)V` at the start of a suffix: a maximal digit run, an
optional dot followed by a maximal digit run, then a literal `V`.  (Shorter
digit runs never help the trailing `V`, since the next character would then be
a digit.) -/
def voltageAt (l : List Char) : Option (List Char) :=
  let d := l.takeWhile Char.isDigit
  if d.isEmpty then none else
  match l.drop d.length with
  | 'V' :: _ => some d
  | '.' :: rest2 =>
    let e := rest2.takeWhile Char.isDigit
    match rest2.drop e.length with
    | 'V' :: _ => some (d ++ '.' :: e)
    | _ => none
  | _ => none

/-- Python `re.search(r"(\d+\.?\d*)V", s).group(1)`. -/
def searchVoltage (l : List Char) : Option (List Char) := scanFirst voltageAt l

/-- Match of `(pF|nF|uF)` at the start of a suffix. -/
def capUnitAt : List Char → Option (List Char)
  | c :: 'F' :: _ => if c == 'p' || c == 'n' || c == 'u' then some [c, 'F'] else none
  | _ => none

/-- Match of `(\d+\.?\d*)(pF|nF|uF)` at the start of a suffix, returning the
concatenation `group(1) ++ group(2)` (the Python code builds exactly that). -/
def capValueAt (l : List Char) : Option (List Char) :=
  let d := l.takeWhile Char.isDigit
  if d.isEmpty then none else
  match l.drop d.length with
  | '.' :: rest2 =>
    let e := rest2.takeWhile Char.isDigit
    match capUnitAt (rest2.drop e.length) with
    | some u => some (d ++ '.' :: (e ++ u))
    | none => none
  | rest =>
    match capUnitAt rest with
    | some u => some (d ++ u)
    | none => none

/-- Python `re.search(r"(\d+\.?\d*)(pF|nF|uF)", s)`, groups 1 and 2 concatenated. -/
def searchCapValue (l : List Char) : Option (List Char) := scanFirst capValueAt l

/-- Match of `(X7R|X5R|C0G)` at the start of a suffix. -/
def capTypeAt : List Char → Option (List Char)
  | 'X' :: '7' :: 'R' :: _ => some ['X', '7', 'R']
  | 'X' :: '5' :: 'R' :: _ => some ['X', '5', 'R']
  | 'C' :: '0' :: 'G' :: _ => some ['C', '0', 'G']
  | _ => none

/-- Python `re.search(r"(X7R|X5R|C0G)", s).group(1)`. -/
def searchCapType (l : List Char) : Option (List Char) := scanFirst capTypeAt l

/-- Match of `±(\d+)%` at the start of a suffix. -/
def toleranceAt : List Char → Option (List Char)
  | '±' :: rest =>
    let d := rest.takeWhile Char.isDigit
    if d.isEmpty then none else
    match rest.drop d.length with
    | '%' :: _ => some d
    | _ => none
  | _ => none

/-- Python `re.search(r"±(\d+)%", s).group(1)`. -/
def searchTolerance (l : List Char) : Option (List Char) := scanFirst toleranceAt l

/-- Value of a digit string, as Python `int`. -/
def digitsToNat (l : List Char) : Nat := l.foldl (fun a c => a * 10 + (c.toNat - 48)) 0

/-- Value of a `\d+\.?\d*` string, as Python `float` (exact here: the values in
play are small decimals). -/
def parseDecimal (l : List Char) : ℚ :=
  let intPart := l.takeWhile Char.isDigit
  let fracPart := l.drop (intPart.length + 1)
  (digitsToNat intPart : ℚ) + (digitsToNat fracPart : ℚ) / ((10 : ℚ) ^ fracPart.length)

/-! ### Static maps from the script -/

def RESISTOR_VALUE_MAP_ERJ : List (String × String) :=
  [("1.5kΩ", "1501"), ("10kΩ", "1002"), ("1kΩ", "1001"), ("26.1Ω", "26R1"),
   ("4.7kΩ", "4701"), ("220Ω", "2200"), ("510Ω", "5100"), ("5.6kΩ", "5601"),
   ("100kΩ", "1003"), ("60.4Ω", "60R4"), ("1.2kΩ", "1201"), ("180Ω", "1800")]

def RESISTOR_FOOTPRINT_MAP_ERJ : List (String × String) :=
  [("0402", "ERJ-2RKF"), ("0603", "ERJ-3EKF")]

/-- Map `RESISTOR_FOOTPRINT_MAP_ERJ_SUFFIX` in the source (renamed here). -/
def RESISTOR_FOOTPRINT_MAP_ERJ_SFX : List (String × String) :=
  [("0402", "X"), ("0603", "V")]

def CAPACITOR_MAP : List ((ℚ × String × String × Nat × String) × String) :=
  [((16, "100nF", "X7R", 10, "0402"), "GCM155R71C104KA55J"),
   ((50, "2.2uF", "X5R", 10, "0805"), "GCM21BR71C225KA64L"),
   ((6.3, "2.2uF", "X5R", 20, "0402"), "GRM155R61C225KE11D"),
   ((50, "12nF", "X7R", 10, "0402"), "GCM155R71E123KA55J"),
   ((50, "18pF", "C0G", 5, "0402"), "GCM1555C1H180JA16D"),
   ((50, "20pF", "C0G", 5, "0402"), "GCM1555C1H220JA16J"),
   ((25, "1uF", "X5R", 10, "0402"), "GRM155R61E105KA12D"),
   ((50, "4.7nF", "X7R", 10, "0402"), "GCM155R71H472KA37J")]

def MPN_MAP : List (String × String) :=
  [("C2040", "RP2040"),
   ("RP2040", "SC0914(13)"),
   ("C9002", "X322512MSB4SI"),
   ("C97521", "W25Q128JVSIQ"),
   ("X322512MSB4SI", "ECS-2333-120-BN-TR"),
   ("ERM8-040-05.0-X-DV-L-K-TR", "ERM8-040-05.0-L-DV-L-K-TR")]

/-! ### `normalize_filename` -/

/-- The character class of `re.sub(r'[/<>:"\\|?*,]', "_", mpn)`. -/
def invalidChars : List Char := ['/', '<', '>', ':', '"', '\\', '|', '?', '*', ',']

/-- First step of `normalize_filename`: replace invalid characters by `_`. -/
def replaceInvalid (l : List Char) : List Char :=
  l.map (fun c => if c ∈ invalidChars then '_' else c)

/-- Second step: `re.sub(r"_+", "_", ...)`, collapsing runs of underscores. -/
def collapseUnderscores : List Char → List Char
  | [] => []
  | a :: rest =>
    match rest with
    | [] => [a]
    | b :: _ =>
      if a == '_' && b == '_' then collapseUnderscores rest
      else a :: collapseUnderscores rest

/-- Third step: Python `str.strip("_")`. -/
def stripUnderscores (l : List Char) : List Char :=
  ((l.dropWhile (fun c => c == '_')).reverse.dropWhile (fun c => c == '_')).reverse

/-- Function `normalize_filename` from the source. -/
def normalize_filename (mpn : String) : String :=
  String.mk (stripUnderscores (collapseUnderscores (replaceInvalid mpn.data)))

/-! ### Catalog data model and `extract_product_info` -/

structure Pricing where
  BreakQuantity : Nat
  UnitPrice : ℚ

deriving DecidableEq

structure Variation where
  DigiKeyProductNumber : String
  QuantityAvailableforPackageType : Nat
  MinimumOrderQuantity : Nat
  StandardPricing : List Pricing

deriving DecidableEq

structure DKProduct where
  ManufacturerProductNumber : String
  ProductDescription : String
  ManufacturerName : String
  Parameters : List (String × String)
  ProductVariations : List Variation

deriving DecidableEq

/-- The dict built by the script for one BOM line / one catalog product; every
key that is only sometimes present is an `Option`. -/
structure Record where
  mpn : Option String := none
  designators : Option String := none
  quantity : Option Nat := none
  description : Option String := none
  manufacturer : Option String := none
  vendor : Option String := none
  vendor_part_number : Option String := none
  value : Option String := none
  footprint : Option String := none
  available : Option Nat := none
  unit_price : Option ℚ := none
  total_price : Option ℚ := none
  dni : Option String := none

deriving DecidableEq

/-- Python `data.update(overlay)`: keys present in the overlay win. -/
def updateRecord (base overlay : Record) : Record :=
  { mpn := overlay.mpn.or base.mpn,
    designators := overlay.designators.or base.designators,
    quantity := overlay.quantity.or base.quantity,
    description := overlay.description.or base.description,
    manufacturer := overlay.manufacturer.or base.manufacturer,
    vendor := overlay.vendor.or base.vendor,
    vendor_part_number := overlay.vendor_part_number.or base.vendor_part_number,
    value := overlay.value.or base.value,
    footprint := overlay.footprint.or base.footprint,
    available := overlay.available.or base.available,
    unit_price := overlay.unit_price.or base.unit_price,
    total_price := overlay.total_price.or base.total_price,
    dni := overlay.dni.or base.dni }

/-- State of the best-variant loop in `extract_product_info`:
`best_unit_price` is `none` while still `float("inf")`, in which case none of
the three keys has been written. -/
structure Best where
  unit_price : Option ℚ
  vendor_part_number : Option String
  available : Option Nat

deriving DecidableEq

/-- Comparison `unit_price < best_unit_price` with `none` playing `float("inf")`. -/
def ltBest (u : ℚ) : Option ℚ → Bool
  | none => true
  | some b => decide (u < b)

/-- Body of the inner loop over `variation["StandardPricing"]`. -/
def stepPricing (oq : Nat) (pn : String) (avail : Nat) (best : Best) (p : Pricing) : Best :=
  if p.BreakQuantity > oq then best
  else if ltBest p.UnitPrice best.unit_price then
    { unit_price := some p.UnitPrice, vendor_part_number := some pn, available := some avail }
  else best

/-- Body of the outer loop over `response["ProductVariations"]`. -/
def stepVariation (oq : Nat) (best : Best) (v : Variation) : Best :=
  if v.QuantityAvailableforPackageType == 0 || v.MinimumOrderQuantity > oq then best
  else v.StandardPricing.foldl
    (stepPricing oq v.DigiKeyProductNumber v.QuantityAvailableforPackageType) best

/-- The whole selection loop of `extract_product_info`. -/
def selectBest (oq : Nat) (vars : List Variation) : Best :=
  vars.foldl (stepVariation oq) { unit_price := none, vendor_part_number := none, available := none }

/-- Function `extract_product_info` from the source. -/
def extract_product_info (response : DKProduct) (order_quantity : Nat) : Record :=
  let best := selectBest order_quantity response.ProductVariations
  { mpn := some response.ManufacturerProductNumber,
    description := some response.ProductDescription,
    manufacturer := some response.ManufacturerName,
    vendor := some "DigiKey",
    footprint := ((response.Parameters.find?
      (fun p => decide (p.1 = "Supplier Device Package"))).map (fun p => p.2)),
    vendor_part_number := best.vendor_part_number,
    unit_price := best.unit_price,
    available := best.available }

/-- A keyword-search response: the `ExactMatches` and `Products` arrays. -/
structure SearchResponse where
  ExactMatches : List DKProduct
  Products : List DKProduct

deriving DecidableEq

/-- Product-picking and error logic of `search_digikey_info`, as a function of
the (cached or fetched) response. -/
def search_digikey_info (resp : SearchResponse) (order_quantity : Nat) (mpn : String) :
    Except String Record :=
  match resp.ExactMatches with
  | p :: _ => .ok (extract_product_info p order_quantity)
  | [] =>
    match resp.Products with
    | [] => .error ("No products found for MPN: " ++ mpn)
    | [p] => .ok (extract_product_info p order_quantity)
    | _ :: _ :: _ => .error ("Multiple products found for MPN: " ++ mpn)

/-! ### Disk caches (state passed explicitly) -/

/-- Contents of `token.json`. -/
structure TokenCache where
  access_token : String
  expires_at : ℚ

deriving DecidableEq

/-- Cache-consultation logic of `get_digikey_token`; the second component
records whether an HTTP token request was issued. -/
def get_digikey_token (cached : Option TokenCache) (now : ℚ) (freshToken : String) :
    String × Bool :=
  match cached with
  | some t => if now < t.expires_at - 60 then (t.access_token, false) else (freshToken, true)
  | none => (freshToken, true)

/-- Contents of one `search/<normalized>.json` cache file. -/
structure SearchCacheEntry where
  response : SearchResponse
  cached_at : ℚ

deriving DecidableEq

/-- Cache-consultation logic of `get_cached_digikey_response`: `cacheDir` maps
a file name to the cache file's contents when that file exists; the second
component records whether an HTTP search request was issued. -/
def get_cached_digikey_response (cacheDir : String → Option SearchCacheEntry) (now : ℚ)
    (keyword : String) (freshResp : SearchResponse) : SearchResponse × Bool :=
  match cacheDir (normalize_filename keyword) with
  | some e => if now < e.cached_at + 3600 * 4 then (e.response, false) else (freshResp, true)
  | none => (freshResp, true)

/-! ### Comment parsers -/

/-- Function `erj_mpn` from the source; a `KeyError` on a missing dict key becomes an
`Except.error`. -/
def erj_mpn (value footprint : String) : Except String String :=
  match lookupTab RESISTOR_VALUE_MAP_ERJ value with
  | none => .error ("KeyError: " ++ value)
  | some erj_value =>
    match lookupTab RESISTOR_FOOTPRINT_MAP_ERJ footprint with
    | none => .error ("KeyError: " ++ footprint)
    | some erj_pre =>
      match lookupTab RESISTOR_FOOTPRINT_MAP_ERJ_SFX footprint with
      | none => .error ("KeyError: " ++ footprint)
      | some erj_sfx => .ok (erj_pre ++ erj_value ++ erj_sfx)

/-- Function `parse_resistor_comment` from the source. -/
def parse_resistor_comment (comment : String) : Except String Record :=
  match searchResistorValue comment.data, searchFourDigits comment.data with
  | some vcs, some fcs =>
    let value := String.mk vcs
    let footprint := String.mk fcs
    match erj_mpn value footprint with
    | .error e => .error e
    | .ok mpn =>
      .ok { mpn := some mpn, value := some value, footprint := some footprint,
            description := some (value ++ " ±1% " ++ footprint ++
              " thick film resistor 0.1W 50V ±100ppm/C"),
            vendor := some "DigiKey",
            manufacturer := some "Panasonic Electronic Components" }
  | _, _ => .error "Invalid resistor comment"

/-- Function `parse_capacitor_comment` from the source. -/
def parse_capacitor_comment (comment : String) : Except String Record :=
  match searchVoltage comment.data, searchCapValue comment.data, searchCapType comment.data,
      searchTolerance comment.data, searchFourDigits comment.data with
  | some vo, some va, some ty, some tol, some fp =>
    let voltage := parseDecimal vo
    let value := String.mk va
    let cap_type := String.mk ty
    let tolerance := digitsToNat tol
    let footprint := String.mk fp
    match lookupTab CAPACITOR_MAP (voltage, value, cap_type, tolerance, footprint) with
    | none => .error "KeyError: capacitor key not in CAPACITOR_MAP"
    | some mpn =>
      .ok { mpn := some mpn, value := some value, footprint := some footprint,
            description := some (value ++ " ±" ++ toString tolerance ++ "% " ++ cap_type ++
              " " ++ footprint ++ " capacitor (MLCC)"),
            vendor := some "DigiKey",
            manufacturer := some "Murata" }
  | _, _, _, _, _ => .error "Invalid capacitor comment"

/-! ### BOM rows -/

structure BomRow where
  LCSC : String
  Designator : String
  Comment : String

deriving DecidableEq

/-- The `while data["mpn"] in MPN_MAP` loop, with explicit fuel; `none` means
the fuel ran out (i.e. the Python loop would still be running). -/
def mpnLoop : Nat → String → Option String
  | fuel, s =>
    match fuel, lookupTab MPN_MAP s with
    | _, none => some s
    | 0, some _ => none
    | f + 1, some t => mpnLoop f t

/-- Python `s.split(",")` (single-character separator): one piece per
comma-separated segment, so the piece count is (number of commas) + 1. -/
def splitOnComma : List Char → List (List Char)
  | [] => [[]]
  | c :: rest =>
    let r := splitOnComma rest
    if c == ',' then [] :: r
    else
      match r with
      | [] => [[c]]
      | h :: t => (c :: h) :: t

/-- The dict literal of the `"Do not populate"` branch. -/
def dniOverlay : Record :=
  { mpn := some "DNI", dni := some "DNI", description := some "Do not install" }

/-- Initial `data` dict of `parse_bom_row`. -/
def initialData (row : BomRow) : Record :=
  { mpn := some row.LCSC,
    designators := some row.Designator,
    quantity := some (splitOnComma row.Designator.data).length,
    description := some row.Comment }

/-- Final `total_price` step of `parse_bom_row`. -/
def finishRow (data : Record) (order_quantity : Nat) : Record :=
  match data.unit_price with
  | some u => { data with total_price := some (u * (order_quantity : ℚ)) }
  | none => data

/-- Function `parse_bom_row` from the source, with the catalog passed in as a function
from resolved part identifier to its search response. -/
def parse_bom_row (row : BomRow) (catalog : String → SearchResponse)
    (board_quantity : Nat) : Except String Record :=
  let data := initialData row
  let order_quantity := (splitOnComma row.Designator.data).length * board_quantity
  if containsSub row.Comment "Resistor" then
    match parse_resistor_comment row.Comment with
    | .error e => .error e
    | .ok r =>
      let data1 := updateRecord data r
      let m := data1.mpn.getD ""
      match search_digikey_info (catalog m) order_quantity m with
      | .error e => .error e
      | .ok info => .ok (finishRow (updateRecord data1 info) order_quantity)
  else if containsSub row.Comment "Capacitor" then
    match parse_capacitor_comment row.Comment with
    | .error e => .error e
    | .ok r =>
      let data1 := updateRecord data r
      let m := data1.mpn.getD ""
      match search_digikey_info (catalog m) order_quantity m with
      | .error e => .error e
      | .ok info => .ok (finishRow (updateRecord data1 info) order_quantity)
  else if containsSub row.Comment "Do not populate" then
    .ok (finishRow (updateRecord data dniOverlay) order_quantity)
  else
    match mpnLoop MPN_MAP.length row.LCSC with
    | none => .error "MPN_MAP rewrite loop did not terminate"
    | some m =>
      match search_digikey_info (catalog m) order_quantity m with
      | .error e => .error e
      | .ok info =>
        .ok (finishRow (updateRecord { initialData row with mpn := some m } info) order_quantity)

/-- Function `parse_bom` from the source (CSV reading abstracted to a list of rows):
the comprehension evaluates rows in order and the first raise aborts. -/
def parse_bom (rows : List BomRow) (catalog : String → SearchResponse)
    (board_quantity : Nat) : Except String (List Record) :=
  match rows with
  | [] => .ok []
  | row :: rest =>
    match parse_bom_row row catalog board_quantity with
    | .error e => .error e
    | .ok r =>
      match parse_bom rest catalog board_quantity with
      | .error e => .error e
      | .ok rs => .ok (r :: rs)

/-! ### Report: sorting, totals, price cells -/

/-- Python `float(x.get("total_price", 0.0))`. -/
def sortKey (r : Record) : ℚ := r.total_price.getD 0

/-- Stable descending order used by `data.sort(key=..., reverse=True)`. -/
def recLE (a b : Record) : Bool := decide (sortKey b ≤ sortKey a)

/-- The sort in `main` (Python `list.sort` is stable; `reverse=True` gives a
stable descending sort). -/
def sortRecords (l : List Record) : List Record := l.mergeSort recLE

/-- Python `sum(row.get("total_price", 0.0) for row in data)`. -/
def grandTotal (data : List Record) : ℚ := (data.map (fun r => r.total_price.getD 0)).sum

/-- Python `total_price / board_count`. -/
def perBoardPrice (total : ℚ) (board_count : Nat) : ℚ := total / (board_count : ℚ)

/-- The sorted record list that `main` renders. -/
def mainReportData (rows : List BomRow) (catalog : String → SearchResponse)
    (board_count : Nat) : Except String (List Record) :=
  (parse_bom rows catalog board_count).map sortRecords

/-- Two-decimal rendering of a money amount.  (Python renders via the float
format `:.2f`; the rounding mode is not load-bearing for any claim, only the
empty-cell case is.) -/
def money2 (x : ℚ) : String :=
  let c : ℤ := round (x * 100)
  toString (c / 100) ++ "." ++ (if c % 100 < 10 then "0" else "") ++ toString (c % 100)

/-- The `Unit Price` cell of a report row: `row.get("unit_price", "")`,
formatted as currency when non-empty. -/
def unitPriceCell (r : Record) : String :=
  match r.unit_price with
  | none => ""
  | some x => "$" ++ money2 x

/-- The `Total Price` cell of a report row. -/
def totalPriceCell (r : Record) : String :=
  match r.total_price with
  | none => ""
  | some x => "$" ++ money2 x

deriving instance DecidableEq for Except

def c2BadComment : String := "Resistor ±1% 5Ω x ±1% 10kΩ 0402"

/-- All extraction regexes of `parse_resistor_comment` match and every
extracted key is in its static map. -/
def resistorDecodable (comment : String) : Bool :=
  match searchResistorValue comment.data, searchFourDigits comment.data with
  | some v, some f =>
    (lookupTab RESISTOR_VALUE_MAP_ERJ (String.mk v)).isSome &&
    (lookupTab RESISTOR_FOOTPRINT_MAP_ERJ (String.mk f)).isSome &&
    (lookupTab RESISTOR_FOOTPRINT_MAP_ERJ_SFX (String.mk f)).isSome
  | _, _ => false

/-- All extraction regexes of `parse_capacitor_comment` match and the
extracted key tuple is in `CAPACITOR_MAP`. -/
def capacitorDecodable (comment : String) : Bool :=
  match searchVoltage comment.data, searchCapValue comment.data, searchCapType comment.data,
      searchTolerance comment.data, searchFourDigits comment.data with
  | some vo, some va, some ty, some tol, some fp =>
    (lookupTab CAPACITOR_MAP
      (parseDecimal vo, String.mk va, String.mk ty, digitsToNat tol, String.mk fp)).isSome
  | _, _, _, _, _ => false

/-- A qualifying (variation, price-break) candidate, as the triple of values
the selection loop writes into the record. -/
structure Cand where
  pn : String
  avail : Nat
  price : ℚ

deriving DecidableEq

/-- The guard of the outer loop: non-zero stock and MOQ not above the order
quantity. -/
def qualifiesVar (oq : Nat) (v : Variation) : Bool :=
  !(v.QuantityAvailableforPackageType == 0 || v.MinimumOrderQuantity > oq)

/-- The candidates a single variation contributes. -/
def candsOfVar (oq : Nat) (v : Variation) : List Cand :=
  if qualifiesVar oq v then
    (v.StandardPricing.filter (fun p => !(p.BreakQuantity > oq))).map
      (fun p => ⟨v.DigiKeyProductNumber, v.QuantityAvailableforPackageType, p.UnitPrice⟩)
  else []

/-- All qualifying candidates of a response, in loop order. -/
def candidates (oq : Nat) (vars : List Variation) : List Cand :=
  vars.flatMap (candsOfVar oq)

def mkBest (c : Cand) : Best :=
  { unit_price := some c.price, vendor_part_number := some c.pn, available := some c.avail }

/-- The selection loop, re-expressed one candidate at a time. -/
def stepCand (best : Best) (c : Cand) : Best :=
  if ltBest c.price best.unit_price then mkBest c else best

/-- A concrete response: one zero-stock variation with a cheaper price, and one
in-stock variation with three price breaks (one above the order quantity). -/
def demoProduct : DKProduct :=
  { ManufacturerProductNumber := "MPN1", ProductDescription := "demo part",
    ManufacturerName := "Mfr",
    Parameters := [("Supplier Device Package", "0402")],
    ProductVariations :=
      [{ DigiKeyProductNumber := "DK-ZERO", QuantityAvailableforPackageType := 0,
         MinimumOrderQuantity := 1, StandardPricing := [{ BreakQuantity := 1, UnitPrice := 1/100 }] },
       { DigiKeyProductNumber := "DK-OK", QuantityAvailableforPackageType := 50,
         MinimumOrderQuantity := 1,
         StandardPricing := [{ BreakQuantity := 1, UnitPrice := 3 },
                             { BreakQuantity := 10, UnitPrice := 2 },
                             { BreakQuantity := 100, UnitPrice := 1 }] }] }

/-- A concrete response in which no variation qualifies: zero stock, or MOQ
above the order quantity, or only break quantities above the order quantity. -/
def demoNoQual : DKProduct :=
  { ManufacturerProductNumber := "MPN2", ProductDescription := "demo part 2",
    ManufacturerName := "Mfr",
    Parameters := [],
    ProductVariations :=
      [{ DigiKeyProductNumber := "DK-A", QuantityAvailableforPackageType := 0,
         MinimumOrderQuantity := 1, StandardPricing := [{ BreakQuantity := 1, UnitPrice := 5 }] },
       { DigiKeyProductNumber := "DK-B", QuantityAvailableforPackageType := 10,
         MinimumOrderQuantity := 100, StandardPricing := [{ BreakQuantity := 1, UnitPrice := 4 }] },
       { DigiKeyProductNumber := "DK-C", QuantityAvailableforPackageType := 10,
         MinimumOrderQuantity := 1, StandardPricing := [{ BreakQuantity := 500, UnitPrice := 3 }] }] }

def demoRow : BomRow := { LCSC := "PN9", Designator := "R1,R2", Comment := "Widget misc part" }

def demoDniRow1 : BomRow :=
  { LCSC := "X1", Designator := "R1,R2", Comment := "Do not populate (spare)" }

def demoDniRow2 : BomRow :=
  { LCSC := "X2", Designator := "C5", Comment := "Do not populate" }

def demoDniRec1 : Record :=
  { mpn := some "DNI", designators := some "R1,R2", quantity := some 2,
    description := some "Do not install", dni := some "DNI" }

def demoDniRec2 : Record :=
  { mpn := some "DNI", designators := some "C5", quantity := some 1,
    description := some "Do not install", dni := some "DNI" }

/-! ### Helper lemmas and claim theorems -/

/-- Claim C6: `search_digikey_info` raises a descriptive error exactly when the
response has no exact matches and either zero products ("No products found") or
more than one product ("Multiple products found"); otherwise it returns the
extracted info of the unique matching product, preferring the first exact match
when exact matches exist. -/
theorem claim_c6 (resp : SearchResponse) (oq : Nat) (mpn : String) :
    ((search_digikey_info resp oq mpn).isOk = false ↔
      resp.ExactMatches = [] ∧ (resp.Products = [] ∨ 1 < resp.Products.length)) ∧
    (resp.ExactMatches = [] → resp.Products = [] →
      search_digikey_info resp oq mpn = .error ("No products found for MPN: " ++ mpn)) ∧
    (resp.ExactMatches = [] → 1 < resp.Products.length →
      search_digikey_info resp oq mpn = .error ("Multiple products found for MPN: " ++ mpn)) ∧
    (∀ p t, resp.ExactMatches = p :: t →
      search_digikey_info resp oq mpn = .ok (extract_product_info p oq)) ∧
    (∀ p, resp.ExactMatches = [] → resp.Products = [p] →
      search_digikey_info resp oq mpn = .ok (extract_product_info p oq)) := by
  obtain ⟨em, pr⟩ := resp
  rcases em with _ | ⟨p, t⟩ <;> rcases pr with _ | ⟨q, _ | ⟨q', t'⟩⟩ <;>
    simp [search_digikey_info, Except.isOk, Except.toBool]

/-- Witness for C6: a response with no matches raises "No products found". -/
theorem claim_c6_witness :
    search_digikey_info ⟨[], []⟩ 5 "XYZ" = .error "No products found for MPN: XYZ" :=
  (claim_c6 ⟨[], []⟩ 5 "XYZ").2.1 rfl rfl

/-- Claim C7: `get_cached_digikey_response` returns the stored response without
issuing an HTTP request iff a cache file for the normalized keyword exists and
its `cached_at` timestamp is less than 4 hours old; `get_digikey_token` reuses
the cached token iff the token cache file exists and the current time is more
than 60 seconds before the token's `expires_at`. -/
theorem claim_c7 (cacheDir : String → Option SearchCacheEntry) (tok : Option TokenCache)
    (now : ℚ) (keyword : String) (freshResp : SearchResponse) (freshToken : String) :
    ((get_cached_digikey_response cacheDir now keyword freshResp).2 = false ↔
      ∃ e, cacheDir (normalize_filename keyword) = some e ∧ now - e.cached_at < 3600 * 4) ∧
    (∀ e, cacheDir (normalize_filename keyword) = some e → now - e.cached_at < 3600 * 4 →
      get_cached_digikey_response cacheDir now keyword freshResp = (e.response, false)) ∧
    ((get_digikey_token tok now freshToken).2 = false ↔
      ∃ t, tok = some t ∧ now < t.expires_at - 60) ∧
    (∀ t, tok = some t → now < t.expires_at - 60 →
      get_digikey_token tok now freshToken = (t.access_token, false)) := by
  refine ⟨?_, ?_, ?_, ?_⟩
  · rcases h : cacheDir (normalize_filename keyword) with _ | e
    · simp [get_cached_digikey_response, h]
    · by_cases hf : now < e.cached_at + 3600 * 4
      · simp [get_cached_digikey_response, h, if_pos hf]
        linarith
      · simp [get_cached_digikey_response, h, if_neg hf]
        linarith [not_lt.mp hf]
  · intro e he hlt
    have hf : now < e.cached_at + 3600 * 4 := by linarith
    simp [get_cached_digikey_response, he, if_pos hf]
  · rcases tok with _ | t
    · simp [get_digikey_token]
    · by_cases hf : now < t.expires_at - 60
      · simp [get_digikey_token, if_pos hf]
        exact hf
      · simp [get_digikey_token, if_neg hf]
        linarith [not_lt.mp hf]
  · intro t ht hlt
    subst ht
    simp [get_digikey_token, if_pos hlt]

/-- Witness for C7: a concrete fresh cache entry and token are reused. -/
theorem claim_c7_witness :
    get_cached_digikey_response (fun _ => some ⟨⟨[], []⟩, 100⟩) 200 "A/B" ⟨[], []⟩ =
      (⟨[], []⟩, false) ∧
    get_digikey_token (some ⟨"tok", 1000⟩) 200 "fresh" = ("tok", false) :=
  ⟨(claim_c7 (fun _ => some ⟨⟨[], []⟩, 100⟩) none 200 "A/B" ⟨[], []⟩ "").2.1
      ⟨⟨[], []⟩, 100⟩ rfl (by norm_num),
   (claim_c7 (fun _ => none) (some ⟨"tok", 1000⟩) 200 "" ⟨[], []⟩ "fresh").2.2.2
      ⟨"tok", 1000⟩ rfl (by norm_num)⟩

/-- Fuel monotonicity: a result of the MPN rewrite loop is stable under more
fuel. -/
theorem mpnLoop_mono (fuel fuel' : Nat) (s r : String) (h : fuel ≤ fuel')
    (hl : mpnLoop fuel s = some r) : mpnLoop fuel' s = some r := by
  induction fuel generalizing fuel' s with
  | zero =>
    rcases hm : lookupTab MPN_MAP s with _ | t
    · rcases fuel' with _ | f' <;> simp [mpnLoop, hm] at hl ⊢ <;> exact hl
    · simp [mpnLoop, hm] at hl
  | succ f ih =>
    rcases hm : lookupTab MPN_MAP s with _ | t
    · rcases fuel' with _ | f' <;> simp [mpnLoop, hm] at hl ⊢ <;> exact hl
    · rcases fuel' with _ | f'
      · omega
      · simp [mpnLoop, hm] at hl ⊢
        exact ih f' t (by omega) hl

/-- Claim C8: for every starting identifier the `while data["mpn"] in MPN_MAP`
rewrite loop terminates — it reaches, within at most 2 rewrites (any fuel of at
least 2 gives the same answer), an identifier that is not a key of `MPN_MAP`,
i.e. a fixed point. -/
theorem claim_c8 (s : String) :
    ∃ r, lookupTab MPN_MAP r = none ∧ ∀ fuel, 2 ≤ fuel → mpnLoop fuel s = some r := by
  by_cases h1 : s = "C2040"
  · exact h1 ▸ ⟨"SC0914(13)", by decide,
      fun fuel hf => mpnLoop_mono 2 fuel _ _ hf (by decide)⟩
  by_cases h2 : s = "RP2040"
  · exact h2 ▸ ⟨"SC0914(13)", by decide,
      fun fuel hf => mpnLoop_mono 2 fuel _ _ hf (by decide)⟩
  by_cases h3 : s = "C9002"
  · exact h3 ▸ ⟨"ECS-2333-120-BN-TR", by decide,
      fun fuel hf => mpnLoop_mono 2 fuel _ _ hf (by decide)⟩
  by_cases h4 : s = "C97521"
  · exact h4 ▸ ⟨"W25Q128JVSIQ", by decide,
      fun fuel hf => mpnLoop_mono 2 fuel _ _ hf (by decide)⟩
  by_cases h5 : s = "X322512MSB4SI"
  · exact h5 ▸ ⟨"ECS-2333-120-BN-TR", by decide,
      fun fuel hf => mpnLoop_mono 2 fuel _ _ hf (by decide)⟩
  by_cases h6 : s = "ERM8-040-05.0-X-DV-L-K-TR"
  · exact h6 ▸ ⟨"ERM8-040-05.0-L-DV-L-K-TR", by decide,
      fun fuel hf => mpnLoop_mono 2 fuel _ _ hf (by decide)⟩
  · have hnone : lookupTab MPN_MAP s = none := by
      simp only [lookupTab, MPN_MAP, Option.map_eq_none']
      rw [List.find?_eq_none]
      intro kv hkv
      simp only [List.mem_cons, List.not_mem_nil, or_false] at hkv
      rcases hkv with rfl | rfl | rfl | rfl | rfl | rfl <;>
        simp only [decide_eq_true_eq] <;> intro hk
      · exact h1 hk.symm
      · exact h2 hk.symm
      · exact h3 hk.symm
      · exact h4 hk.symm
      · exact h5 hk.symm
      · exact h6 hk.symm
    refine ⟨s, hnone, fun fuel _ => ?_⟩
    rcases fuel with _ | f <;> simp [mpnLoop, hnone]

/-- Witness for C8: the chain C2040 → RP2040 → SC0914(13) at fuel 6. -/
theorem claim_c8_witness : mpnLoop 6 "C2040" = some "SC0914(13)" := by
  obtain ⟨r, hr, hloop⟩ := claim_c8 "C2040"
  have h6 := hloop 6 (by norm_num)
  have h2 := hloop 2 (by norm_num)
  have hre : some r = some "SC0914(13)" := by rw [← h2]; decide
  rw [h6]
  exact hre

/-- Counterexample to C2 as stated: `c2BadComment` contains `±1% ` immediately
followed by the mapped value `10kΩ`, and its first four-digit substring `0402`
is a mapped footprint, yet `parse_resistor_comment` raises a `KeyError` (the
leftmost regex match extracts the unmapped value `5Ω`) instead of returning the
`ERJ-2RKF1002X` record. -/
theorem claim_c2_counterexample :
    containsSub c2BadComment "±1% 10kΩ" = true ∧
    lookupTab RESISTOR_VALUE_MAP_ERJ "10kΩ" = some "1002" ∧
    searchFourDigits c2BadComment.data = some "0402".data ∧
    lookupTab RESISTOR_FOOTPRINT_MAP_ERJ "0402" = some "ERJ-2RKF" ∧
    parse_resistor_comment c2BadComment = .error "KeyError: 5Ω" := by
  exact ⟨by decide, by decide, by decide, by decide, by decide⟩

/-- Claim C2 (amended): for every comment string where the leftmost match of
the value regex `±1% ([0-9.]+[kΩ]+)` yields a value mapped by
`RESISTOR_VALUE_MAP_ERJ` and the first four-digit substring is a footprint
mapped by the ERJ footprint maps, `parse_resistor_comment` returns the record
whose MPN is the footprint's ERJ prefix, then the value's code, then the
footprint's suffix character. -/
theorem claim_c2 (comment : String) (vcs fcs : List Char) (code pre sfx : String)
    (hv : searchResistorValue comment.data = some vcs)
    (hf : searchFourDigits comment.data = some fcs)
    (h1 : lookupTab RESISTOR_VALUE_MAP_ERJ (String.mk vcs) = some code)
    (h2 : lookupTab RESISTOR_FOOTPRINT_MAP_ERJ (String.mk fcs) = some pre)
    (h3 : lookupTab RESISTOR_FOOTPRINT_MAP_ERJ_SFX (String.mk fcs) = some sfx) :
    ∃ r, parse_resistor_comment comment = .ok r ∧ r.mpn = some (pre ++ code ++ sfx) := by
  unfold parse_resistor_comment
  rw [hv, hf]
  simp only [erj_mpn, h1, h2, h3]
  exact ⟨_, rfl, rfl⟩

/-- Witness for C2: value `10kΩ` with footprint `0402` yields
`ERJ-2RKF1002X`. -/
theorem claim_c2_witness :
    ∃ r, parse_resistor_comment "Chip Resistor - Surface Mount 0402 ±1% 10kΩ" = .ok r ∧
      r.mpn = some "ERJ-2RKF1002X" :=
  claim_c2 "Chip Resistor - Surface Mount 0402 ±1% 10kΩ" "10kΩ".data "0402".data
    "1002" "ERJ-2RKF" "X" (by decide) (by decide) (by decide) (by decide) (by decide)

/-- An `Except` that is not ok is an error. -/
theorem exists_error_of_isOk_false {ε α : Type} (x : Except ε α) (h : x.isOk = false) :
    ∃ e, x = .error e := by
  cases x with
  | error e => exact ⟨e, rfl⟩
  | ok a => simp [Except.isOk, Except.toBool] at h

/-- `parse_resistor_comment` succeeds exactly on decodable comments. -/
theorem parse_resistor_isOk (comment : String) :
    (parse_resistor_comment comment).isOk = resistorDecodable comment := by
  unfold parse_resistor_comment resistorDecodable
  rcases searchResistorValue comment.data with _ | vcs <;>
    rcases searchFourDigits comment.data with _ | fcs
  · rfl
  · rfl
  · rfl
  · dsimp only
    unfold erj_mpn
    rcases lookupTab RESISTOR_VALUE_MAP_ERJ (String.mk vcs) with _ | code
    · rfl
    rcases lookupTab RESISTOR_FOOTPRINT_MAP_ERJ (String.mk fcs) with _ | pre
    · rfl
    rcases lookupTab RESISTOR_FOOTPRINT_MAP_ERJ_SFX (String.mk fcs) with _ | sfx
    · rfl
    · rfl

/-- `parse_capacitor_comment` succeeds exactly on decodable comments. -/
theorem parse_capacitor_isOk (comment : String) :
    (parse_capacitor_comment comment).isOk = capacitorDecodable comment := by
  unfold parse_capacitor_comment capacitorDecodable
  rcases searchVoltage comment.data with _ | vo <;>
    rcases searchCapValue comment.data with _ | va <;>
      rcases searchCapType comment.data with _ | ty <;>
        rcases searchTolerance comment.data with _ | tol <;>
          rcases searchFourDigits comment.data with _ | fp
  case some.some.some.some.some =>
    dsimp only
    rcases lookupTab CAPACITOR_MAP
        (parseDecimal vo, String.mk va, String.mk ty, digitsToNat tol, String.mk fp) with _ | mpn
    · rfl
    · rfl
  all_goals rfl

/-- Claim C5: a Resistor (resp. Capacitor) comment that cannot be decoded —
some extraction regex fails, or an extracted value/footprint/capacitor key is
missing from its static map — makes `parse_resistor_comment` (resp.
`parse_capacitor_comment`) raise an error rather than return any (partial)
record. -/
theorem claim_c5 (comment : String) :
    (containsSub comment "Resistor" = true → resistorDecodable comment = false →
      ∃ e, parse_resistor_comment comment = .error e) ∧
    (containsSub comment "Capacitor" = true → capacitorDecodable comment = false →
      ∃ e, parse_capacitor_comment comment = .error e) := by
  constructor
  · intro _ hdec
    exact exists_error_of_isOk_false _ ((parse_resistor_isOk comment).trans hdec)
  · intro _ hdec
    exact exists_error_of_isOk_false _ ((parse_capacitor_isOk comment).trans hdec)

/-- Witness for C5: an unmapped resistor value and a capacitor comment with no
tolerance/voltage both raise. -/
theorem claim_c5_witness :
    (∃ e, parse_resistor_comment "Thick Film Resistor ±1% 47kΩ 0402" = .error e) ∧
    (∃ e, parse_capacitor_comment "Capacitor 100nF X7R" = .error e) :=
  ⟨(claim_c5 "Thick Film Resistor ±1% 47kΩ 0402").1 (by decide) (by decide),
   (claim_c5 "Capacitor 100nF X7R").2 (by decide) (by decide)⟩

/-- The inner pricing loop equals a fold over the variation's filtered
candidate triples. -/
theorem foldl_stepPricing_eq (oq : Nat) (pn : String) (av : Nat) :
    ∀ (ps : List Pricing) (best : Best),
      ps.foldl (stepPricing oq pn av) best =
        ((ps.filter (fun p => !(p.BreakQuantity > oq))).map
          (fun p => (⟨pn, av, p.UnitPrice⟩ : Cand))).foldl stepCand best := by
  intro ps
  induction ps with
  | nil => intro best; rfl
  | cons p ps ih =>
    intro best
    by_cases hb : p.BreakQuantity > oq
    · simp [List.filter_cons, stepPricing, hb, ih]
    · simp [List.filter_cons, stepPricing, hb, ih, stepCand, mkBest]

/-- The nested selection loops equal one fold over all candidates. -/
theorem foldl_stepVariation_eq (oq : Nat) :
    ∀ (vars : List Variation) (init : Best),
      vars.foldl (stepVariation oq) init = (candidates oq vars).foldl stepCand init := by
  intro vars
  induction vars with
  | nil => intro init; rfl
  | cons v vs ih =>
    intro init
    have hcand : candidates oq (v :: vs) = candsOfVar oq v ++ candidates oq vs := by
      simp [candidates]
    rw [List.foldl_cons, hcand, List.foldl_append, ih]
    congr 1
    by_cases hq : qualifiesVar oq v = true
    · have hg : (v.QuantityAvailableforPackageType == 0 || v.MinimumOrderQuantity > oq) = false := by
        simpa [qualifiesVar] using hq
      simp only [stepVariation, hg, Bool.false_eq_true, if_false, candsOfVar, hq, if_true]
      exact foldl_stepPricing_eq oq v.DigiKeyProductNumber v.QuantityAvailableforPackageType
        v.StandardPricing init
    · have hg : (v.QuantityAvailableforPackageType == 0 || v.MinimumOrderQuantity > oq) = true := by
        cases hcond : (v.QuantityAvailableforPackageType == 0 || v.MinimumOrderQuantity > oq) with
        | true => rfl
        | false => exact absurd (by simp [qualifiesVar, hcond]) hq
      simp [stepVariation, hg, candsOfVar, hq]

/-- `selectBest` as a single fold over the candidate list. -/
theorem selectBest_eq_foldl_candidates (oq : Nat) (vars : List Variation) :
    selectBest oq vars = (candidates oq vars).foldl stepCand
      { unit_price := none, vendor_part_number := none, available := none } :=
  foldl_stepVariation_eq oq vars _

/-- Folding `stepCand` from a chosen candidate lands on a minimum-price
candidate among the start and the rest. -/
theorem foldl_stepCand_min :
    ∀ (cs : List Cand) (c : Cand), ∃ c', (c' = c ∨ c' ∈ cs) ∧
      cs.foldl stepCand (mkBest c) = mkBest c' ∧ c'.price ≤ c.price ∧
      ∀ d ∈ cs, c'.price ≤ d.price := by
  intro cs
  induction cs with
  | nil => exact fun c => ⟨c, Or.inl rfl, rfl, le_refl _, by simp⟩
  | cons d ds ih =>
    intro c
    by_cases hlt : d.price < c.price
    · have hstep : stepCand (mkBest c) d = mkBest d := by
        simp [stepCand, mkBest, ltBest, hlt]
      obtain ⟨c', hmem, heq, hle, hall⟩ := ih d
      refine ⟨c', ?_, ?_, ?_, ?_⟩
      · rcases hmem with rfl | h
        · exact Or.inr (List.mem_cons_self _ _)
        · exact Or.inr (List.mem_cons_of_mem _ h)
      · rw [List.foldl_cons, hstep]; exact heq
      · exact le_trans hle (le_of_lt hlt)
      · intro e he
        rcases List.mem_cons.mp he with rfl | h
        · exact hle
        · exact hall e h
    · have hstep : stepCand (mkBest c) d = mkBest c := by
        simp [stepCand, mkBest, ltBest, hlt]
      obtain ⟨c', hmem, heq, hle, hall⟩ := ih c
      refine ⟨c', ?_, ?_, ?_, ?_⟩
      · rcases hmem with rfl | h
        · exact Or.inl rfl
        · exact Or.inr (List.mem_cons_of_mem _ h)
      · rw [List.foldl_cons, hstep]; exact heq
      · exact hle
      · intro e he
        rcases List.mem_cons.mp he with rfl | h
        · exact le_trans hle (le_of_not_lt hlt)
        · exact hall e h

/-- Folding `stepCand` from the empty state over a non-empty candidate list
lands on a minimum-price candidate. -/
theorem foldl_stepCand_nonempty (c : Cand) (cs : List Cand) :
    ∃ c' ∈ c :: cs, (c :: cs).foldl stepCand
      { unit_price := none, vendor_part_number := none, available := none } = mkBest c' ∧
      ∀ d ∈ c :: cs, c'.price ≤ d.price := by
  have hstep : stepCand { unit_price := none, vendor_part_number := none, available := none } c
      = mkBest c := by
    simp [stepCand, mkBest, ltBest]
  obtain ⟨c', hmem, heq, hle, hall⟩ := foldl_stepCand_min cs c
  refine ⟨c', ?_, ?_, ?_⟩
  · rcases hmem with rfl | h
    · exact List.mem_cons_self _ _
    · exact List.mem_cons_of_mem _ h
  · rw [List.foldl_cons, hstep]; exact heq
  · intro d hd
    rcases List.mem_cons.mp hd with rfl | h
    · exact hle
    · exact hall d h

/-- Membership in the candidate list means: a variation with stock, MOQ within
the order quantity, and a price break within the order quantity. -/
theorem mem_candidates_iff (oq : Nat) (vars : List Variation) (c : Cand) :
    c ∈ candidates oq vars ↔
      ∃ v ∈ vars, v.QuantityAvailableforPackageType ≠ 0 ∧ v.MinimumOrderQuantity ≤ oq ∧
        ∃ p ∈ v.StandardPricing, p.BreakQuantity ≤ oq ∧
          c = ⟨v.DigiKeyProductNumber, v.QuantityAvailableforPackageType, p.UnitPrice⟩ := by
  simp only [candidates, List.mem_flatMap, candsOfVar, qualifiesVar]
  constructor
  · rintro ⟨v, hv, hc⟩
    by_cases hq : (!(v.QuantityAvailableforPackageType == 0 || v.MinimumOrderQuantity > oq)) = true
    · rw [if_pos hq] at hc
      simp only [List.mem_map, List.mem_filter] at hc
      obtain ⟨p, ⟨hp, hbq⟩, rfl⟩ := hc
      simp only [Bool.or_eq_false_iff, Bool.not_eq_true', beq_eq_false_iff_ne, ne_eq,
        decide_eq_false_iff_not, not_lt] at hq
      simp only [Bool.not_eq_true', decide_eq_false_iff_not, not_lt] at hbq
      exact ⟨v, hv, hq.1, hq.2, p, hp, hbq, rfl⟩
    · rw [if_neg hq] at hc
      simp at hc
  · rintro ⟨v, hv, hav, hmoq, p, hp, hbq, rfl⟩
    refine ⟨v, hv, ?_⟩
    have hq : (!(v.QuantityAvailableforPackageType == 0 || v.MinimumOrderQuantity > oq)) = true := by
      simp [hav, not_lt.mpr hmoq]
    rw [if_pos hq]
    simp only [List.mem_map, List.mem_filter]
    exact ⟨p, ⟨hp, by simp [not_lt.mpr hbq]⟩, rfl⟩

/-- Spec of the candidate fold on any non-empty candidate list. -/
theorem foldl_stepCand_spec (cs : List Cand) (hne : cs ≠ []) :
    ∃ c' ∈ cs, cs.foldl stepCand
      { unit_price := none, vendor_part_number := none, available := none } = mkBest c' ∧
      ∀ d ∈ cs, c'.price ≤ d.price := by
  rcases cs with _ | ⟨c, cs⟩
  · exact absurd rfl hne
  · exact foldl_stepCand_nonempty c cs

/-- Claim C1: whenever some variation qualifies (non-zero stock, MOQ at most
the order quantity, and a price break with break quantity at most the order
quantity), `extract_product_info` returns the DigiKey part number, unit price
and available stock of a qualifying variation/break whose unit price is minimal
among all qualifying variation/breaks; zero-stock or over-MOQ variations are
never selected. -/
theorem claim_c1 (response : DKProduct) (order_quantity : Nat)
    (h : ∃ v ∈ response.ProductVariations, v.QuantityAvailableforPackageType ≠ 0 ∧
      v.MinimumOrderQuantity ≤ order_quantity ∧
      ∃ p ∈ v.StandardPricing, p.BreakQuantity ≤ order_quantity) :
    ∃ v ∈ response.ProductVariations, ∃ p ∈ v.StandardPricing,
      v.QuantityAvailableforPackageType ≠ 0 ∧ v.MinimumOrderQuantity ≤ order_quantity ∧
      p.BreakQuantity ≤ order_quantity ∧
      (extract_product_info response order_quantity).vendor_part_number =
        some v.DigiKeyProductNumber ∧
      (extract_product_info response order_quantity).unit_price = some p.UnitPrice ∧
      (extract_product_info response order_quantity).available =
        some v.QuantityAvailableforPackageType ∧
      (∀ v' ∈ response.ProductVariations, v'.QuantityAvailableforPackageType ≠ 0 →
        v'.MinimumOrderQuantity ≤ order_quantity →
        ∀ p' ∈ v'.StandardPricing, p'.BreakQuantity ≤ order_quantity →
          p.UnitPrice ≤ p'.UnitPrice) := by
  obtain ⟨v0, hv0, hav0, hmoq0, p0, hp0, hbq0⟩ := h
  have hc0 : (⟨v0.DigiKeyProductNumber, v0.QuantityAvailableforPackageType, p0.UnitPrice⟩ : Cand)
      ∈ candidates order_quantity response.ProductVariations :=
    (mem_candidates_iff _ _ _).mpr ⟨v0, hv0, hav0, hmoq0, p0, hp0, hbq0, rfl⟩
  obtain ⟨c', hc'mem, heq, hmin⟩ :=
    foldl_stepCand_spec _ (List.ne_nil_of_mem hc0)
  obtain ⟨v, hv, hav, hmoq, p, hp, hbq, hcv⟩ := (mem_candidates_iff _ _ _).mp hc'mem
  subst hcv
  have hsel : selectBest order_quantity response.ProductVariations =
      mkBest ⟨v.DigiKeyProductNumber, v.QuantityAvailableforPackageType, p.UnitPrice⟩ := by
    rw [selectBest_eq_foldl_candidates]; exact heq
  refine ⟨v, hv, p, hp, hav, hmoq, hbq, ?_, ?_, ?_, ?_⟩
  · show (selectBest order_quantity response.ProductVariations).vendor_part_number = _
    rw [hsel]; rfl
  · show (selectBest order_quantity response.ProductVariations).unit_price = _
    rw [hsel]; rfl
  · show (selectBest order_quantity response.ProductVariations).available = _
    rw [hsel]; rfl
  · intro v' hv' hav' hmoq' p' hp' hbq'
    exact hmin _ ((mem_candidates_iff _ _ _).mpr ⟨v', hv', hav', hmoq', p', hp', hbq', rfl⟩)

/-- Witness for C1 on `demoProduct` at order quantity 10: the zero-stock
cheaper variation and the 100-piece break are passed over. -/
theorem claim_c1_witness :
    (∃ v ∈ demoProduct.ProductVariations, v.QuantityAvailableforPackageType ≠ 0 ∧
      v.MinimumOrderQuantity ≤ 10 ∧ ∃ p ∈ v.StandardPricing, p.BreakQuantity ≤ 10) ∧
    (∃ v ∈ demoProduct.ProductVariations, ∃ p ∈ v.StandardPricing,
      v.QuantityAvailableforPackageType ≠ 0 ∧ v.MinimumOrderQuantity ≤ 10 ∧
      p.BreakQuantity ≤ 10 ∧
      (extract_product_info demoProduct 10).vendor_part_number = some v.DigiKeyProductNumber ∧
      (extract_product_info demoProduct 10).unit_price = some p.UnitPrice ∧
      (extract_product_info demoProduct 10).available = some v.QuantityAvailableforPackageType ∧
      (∀ v' ∈ demoProduct.ProductVariations, v'.QuantityAvailableforPackageType ≠ 0 →
        v'.MinimumOrderQuantity ≤ 10 →
        ∀ p' ∈ v'.StandardPricing, p'.BreakQuantity ≤ 10 →
          p.UnitPrice ≤ p'.UnitPrice)) :=
  ⟨by decide, claim_c1 demoProduct 10 (by decide)⟩

example : (extract_product_info demoProduct 10).unit_price = some 2 := by decide

example : (extract_product_info demoProduct 10).vendor_part_number = some "DK-OK" := by decide

/-- With no qualifying candidate the selection state stays empty. -/
theorem selectBest_empty (oq : Nat) (vars : List Variation)
    (h : candidates oq vars = []) :
    selectBest oq vars =
      { unit_price := none, vendor_part_number := none, available := none } := by
  rw [selectBest_eq_foldl_candidates, h]
  rfl

/-- Claim C9: if no product variation qualifies, `extract_product_info` raises
no error and returns a record lacking `unit_price`, `vendor_part_number` and
`available`; `parse_bom_row` then succeeds with a record with no `total_price`,
whose report price cells are empty and whose sort key is 0. -/
theorem claim_c9 (row : BomRow) (catalog : String → SearchResponse) (board_quantity : Nat)
    (response : DKProduct) (m : String) (rest : List DKProduct)
    (hnoR : containsSub row.Comment "Resistor" = false)
    (hnoC : containsSub row.Comment "Capacitor" = false)
    (hnoD : containsSub row.Comment "Do not populate" = false)
    (hm : mpnLoop MPN_MAP.length row.LCSC = some m)
    (hcat : catalog m = ⟨response :: rest, []⟩)
    (hq : ¬ ∃ v ∈ response.ProductVariations, v.QuantityAvailableforPackageType ≠ 0 ∧
      v.MinimumOrderQuantity ≤ (splitOnComma row.Designator.data).length * board_quantity ∧
      ∃ p ∈ v.StandardPricing,
        p.BreakQuantity ≤ (splitOnComma row.Designator.data).length * board_quantity) :
    (extract_product_info response ((splitOnComma row.Designator.data).length * board_quantity)).unit_price
        = none ∧
    (extract_product_info response
        ((splitOnComma row.Designator.data).length * board_quantity)).vendor_part_number = none ∧
    (extract_product_info response
        ((splitOnComma row.Designator.data).length * board_quantity)).available = none ∧
    ∃ rec, parse_bom_row row catalog board_quantity = .ok rec ∧
      rec.unit_price = none ∧ rec.total_price = none ∧
      unitPriceCell rec = "" ∧ totalPriceCell rec = "" ∧ sortKey rec = 0 := by
  set oq := (splitOnComma row.Designator.data).length * board_quantity with hoq
  have hcands : candidates oq response.ProductVariations = [] := by
    rcases hc : candidates oq response.ProductVariations with _ | ⟨c, cs⟩
    · rfl
    · exfalso
      have hmem : c ∈ candidates oq response.ProductVariations := by rw [hc]; exact List.mem_cons_self _ _
      obtain ⟨v, hv, hav, hmoq, p, hp, hbq, _⟩ := (mem_candidates_iff _ _ _).mp hmem
      exact hq ⟨v, hv, hav, hmoq, p, hp, hbq⟩
  have hsel := selectBest_empty oq response.ProductVariations hcands
  have hex1 : (extract_product_info response oq).unit_price = none := by
    show (selectBest oq response.ProductVariations).unit_price = none
    rw [hsel]
  have hex2 : (extract_product_info response oq).vendor_part_number = none := by
    show (selectBest oq response.ProductVariations).vendor_part_number = none
    rw [hsel]
  have hex3 : (extract_product_info response oq).available = none := by
    show (selectBest oq response.ProductVariations).available = none
    rw [hsel]
  refine ⟨hex1, hex2, hex3, ?_⟩
  have hsearch : search_digikey_info (catalog m) oq m = .ok (extract_product_info response oq) := by
    rw [hcat]
    rfl
  refine ⟨finishRow (updateRecord { initialData row with mpn := some m }
      (extract_product_info response oq)) oq, ?_, ?_⟩
  · unfold parse_bom_row
    rw [hnoR, hnoC, hnoD, hm]
    simp only [Bool.false_eq_true, if_false]
    rw [hsearch]
  · have hup : (updateRecord { initialData row with mpn := some m }
        (extract_product_info response oq)).unit_price = none := by
      simp [updateRecord, initialData, hex1, Option.or]
    have htp : (updateRecord { initialData row with mpn := some m }
        (extract_product_info response oq)).total_price = none := by
      simp [updateRecord, initialData, extract_product_info, Option.or]
    have hfin : finishRow (updateRecord { initialData row with mpn := some m }
        (extract_product_info response oq)) oq =
        updateRecord { initialData row with mpn := some m }
          (extract_product_info response oq) := by
      unfold finishRow
      rw [hup]
    rw [hfin]
    refine ⟨hup, htp, ?_, ?_, ?_⟩
    · unfold unitPriceCell
      rw [hup]
    · unfold totalPriceCell
      rw [htp]
    · unfold sortKey
      rw [htp]
      rfl

/-- Witness for C9 on `demoRow` against `demoNoQual`. -/
theorem claim_c9_witness :
    (extract_product_info demoNoQual
        ((splitOnComma demoRow.Designator.data).length * 1)).unit_price = none ∧
    (extract_product_info demoNoQual
        ((splitOnComma demoRow.Designator.data).length * 1)).vendor_part_number = none ∧
    (extract_product_info demoNoQual
        ((splitOnComma demoRow.Designator.data).length * 1)).available = none ∧
    ∃ rec, parse_bom_row demoRow (fun _ => ⟨[demoNoQual], []⟩) 1 = .ok rec ∧
      rec.unit_price = none ∧ rec.total_price = none ∧
      unitPriceCell rec = "" ∧ totalPriceCell rec = "" ∧ sortKey rec = 0 :=
  claim_c9 demoRow (fun _ => ⟨[demoNoQual], []⟩) 1 demoNoQual "PN9" []
    (by decide) (by decide) (by decide) (by decide) rfl (by decide)

/-- A successful `parse_bom` yields one record per row, each produced by
`parse_bom_row` on some input row. -/
theorem parse_bom_ok (catalog : String → SearchResponse) (b : Nat) :
    ∀ (rows : List BomRow) (recs : List Record),
      parse_bom rows catalog b = .ok recs →
      recs.length = rows.length ∧
      ∀ rec ∈ recs, ∃ row ∈ rows, parse_bom_row row catalog b = .ok rec := by
  intro rows
  induction rows with
  | nil =>
    intro recs h
    simp only [parse_bom] at h
    obtain rfl : ([] : List Record) = recs := Except.ok.inj h
    simp
  | cons row rest ih =>
    intro recs h
    simp only [parse_bom] at h
    rcases hr : parse_bom_row row catalog b with e | r
    · rw [hr] at h; exact absurd h (by simp)
    rw [hr] at h
    rcases hrs : parse_bom rest catalog b with e | rs
    · rw [hrs] at h; exact absurd h (by simp)
    rw [hrs] at h
    obtain rfl : r :: rs = recs := Except.ok.inj h
    obtain ⟨hlen, hmem⟩ := ih rs hrs
    refine ⟨by simp [hlen], ?_⟩
    intro rec hrec
    rcases List.mem_cons.mp hrec with rfl | hrec'
    · exact ⟨row, List.mem_cons_self _ _, hr⟩
    · obtain ⟨row', hrow', hpr⟩ := hmem rec hrec'
      exact ⟨row', List.mem_cons_of_mem _ hrow', hpr⟩

/-- `finishRow` only writes `total_price`, and writes it as unit price times
order quantity. -/
theorem finishRow_fields (data : Record) (oq : Nat) :
    (finishRow data oq).quantity = data.quantity ∧
    (finishRow data oq).unit_price = data.unit_price ∧
    (data.total_price = none →
      (finishRow data oq).total_price =
        data.unit_price.map (fun u => u * ((oq : Nat) : ℚ))) := by
  rcases hu : data.unit_price with _ | u <;> simp [finishRow, hu]

/-- Records returned by `parse_resistor_comment` carry no quantity or
prices. -/
theorem parse_resistor_fields (c : String) (r : Record)
    (h : parse_resistor_comment c = .ok r) :
    r.quantity = none ∧ r.total_price = none ∧ r.unit_price = none := by
  unfold parse_resistor_comment at h
  rcases hv : searchResistorValue c.data with _ | vcs <;>
    rcases hf : searchFourDigits c.data with _ | fcs <;>
      rw [hv, hf] at h
  · simp at h
  · simp at h
  · simp at h
  · dsimp only at h
    rcases he : erj_mpn (String.mk vcs) (String.mk fcs) with e | mpn <;> rw [he] at h
    · simp at h
    · injection h with h2
      subst h2
      exact ⟨rfl, rfl, rfl⟩

/-- Records returned by `parse_capacitor_comment` carry no quantity or
prices. -/
theorem parse_capacitor_fields (c : String) (r : Record)
    (h : parse_capacitor_comment c = .ok r) :
    r.quantity = none ∧ r.total_price = none ∧ r.unit_price = none := by
  unfold parse_capacitor_comment at h
  rcases hvo : searchVoltage c.data with _ | vo <;>
    rcases hva : searchCapValue c.data with _ | va <;>
      rcases hty : searchCapType c.data with _ | ty <;>
        rcases htol : searchTolerance c.data with _ | tol <;>
          rcases hfp : searchFourDigits c.data with _ | fp <;>
            rw [hvo, hva, hty, htol, hfp] at h <;>
              try simp at h
  try dsimp only at h
  rcases hk : lookupTab CAPACITOR_MAP
      (parseDecimal vo, String.mk va, String.mk ty, digitsToNat tol, String.mk fp) with _ | mpn <;>
    rw [hk] at h
  · simp at h
  · injection h with h2
    subst h2
    exact ⟨rfl, rfl, rfl⟩

/-- Records returned by `search_digikey_info` carry no quantity or total
price. -/
theorem search_fields (resp : SearchResponse) (oq : Nat) (m : String) (info : Record)
    (h : search_digikey_info resp oq m = .ok info) :
    info.quantity = none ∧ info.total_price = none := by
  unfold search_digikey_info at h
  rcases resp with ⟨em, pr⟩
  rcases em with _ | ⟨p, t⟩
  · rcases pr with _ | ⟨q, _ | ⟨q', t'⟩⟩
    · simp at h
    · injection h with h2
      subst h2
      exact ⟨rfl, rfl⟩
    · simp at h
  · injection h with h2
    subst h2
    exact ⟨rfl, rfl⟩

/-- Updating with a price-free overlay and finishing keeps the base quantity
and makes `total_price` equal `unit_price` times the order quantity. -/
theorem update_finish_fields (base ov : Record) (oq : Nat)
    (hbt : base.total_price = none) (hot : ov.total_price = none) (hoq : ov.quantity = none) :
    (finishRow (updateRecord base ov) oq).quantity = base.quantity ∧
    (finishRow (updateRecord base ov) oq).total_price =
      (finishRow (updateRecord base ov) oq).unit_price.map (fun u => u * ((oq : Nat) : ℚ)) := by
  have h1 : (updateRecord base ov).total_price = none := by
    show ov.total_price.or base.total_price = none
    rw [hot, hbt]
    rfl
  have h2 : (updateRecord base ov).quantity = base.quantity := by
    show ov.quantity.or base.quantity = base.quantity
    rw [hoq]
    rfl
  obtain ⟨hq, hu, ht⟩ := finishRow_fields (updateRecord base ov) oq
  exact ⟨hq.trans h2, by rw [ht h1, hu]⟩

/-- Every successful `parse_bom_row` record has quantity equal to the
designator count and `total_price` equal to `unit_price` times the order
quantity (designator count times board count), when priced. -/
theorem parse_bom_row_fields (row : BomRow) (catalog : String → SearchResponse) (b : Nat)
    (rec : Record) (h : parse_bom_row row catalog b = .ok rec) :
    rec.quantity = some (splitOnComma row.Designator.data).length ∧
    rec.total_price = rec.unit_price.map
      (fun u => u * (((splitOnComma row.Designator.data).length * b : Nat) : ℚ)) := by
  unfold parse_bom_row at h
  by_cases hR : containsSub row.Comment "Resistor" = true
  · rw [if_pos hR] at h
    rcases hpr : parse_resistor_comment row.Comment with e | r0 <;> rw [hpr] at h
    · simp at h
    dsimp only at h
    rcases hs : search_digikey_info
        (catalog ((updateRecord (initialData row) r0).mpn.getD ""))
        ((splitOnComma row.Designator.data).length * b)
        ((updateRecord (initialData row) r0).mpn.getD "") with e | info <;> rw [hs] at h
    · simp at h
    injection h with h2
    subst h2
    obtain ⟨hq0, ht0, _⟩ := parse_resistor_fields _ _ hpr
    obtain ⟨hqi, hti⟩ := search_fields _ _ _ _ hs
    have hbt : (updateRecord (initialData row) r0).total_price = none := by
      show r0.total_price.or (initialData row).total_price = none
      rw [ht0]
      rfl
    have hbq : (updateRecord (initialData row) r0).quantity =
        some (splitOnComma row.Designator.data).length := by
      show r0.quantity.or (initialData row).quantity = _
      rw [hq0]
      rfl
    obtain ⟨hA, hB⟩ := update_finish_fields _ info _ hbt hti hqi
    exact ⟨hA.trans hbq, hB⟩
  rw [if_neg hR] at h
  by_cases hC : containsSub row.Comment "Capacitor" = true
  · rw [if_pos hC] at h
    rcases hpc : parse_capacitor_comment row.Comment with e | r0 <;> rw [hpc] at h
    · simp at h
    dsimp only at h
    rcases hs : search_digikey_info
        (catalog ((updateRecord (initialData row) r0).mpn.getD ""))
        ((splitOnComma row.Designator.data).length * b)
        ((updateRecord (initialData row) r0).mpn.getD "") with e | info <;> rw [hs] at h
    · simp at h
    injection h with h2
    subst h2
    obtain ⟨hq0, ht0, _⟩ := parse_capacitor_fields _ _ hpc
    obtain ⟨hqi, hti⟩ := search_fields _ _ _ _ hs
    have hbt : (updateRecord (initialData row) r0).total_price = none := by
      show r0.total_price.or (initialData row).total_price = none
      rw [ht0]
      rfl
    have hbq : (updateRecord (initialData row) r0).quantity =
        some (splitOnComma row.Designator.data).length := by
      show r0.quantity.or (initialData row).quantity = _
      rw [hq0]
      rfl
    obtain ⟨hA, hB⟩ := update_finish_fields _ info _ hbt hti hqi
    exact ⟨hA.trans hbq, hB⟩
  rw [if_neg hC] at h
  by_cases hD : containsSub row.Comment "Do not populate" = true
  · rw [if_pos hD] at h
    injection h with h2
    subst h2
    obtain ⟨hA, hB⟩ := update_finish_fields (initialData row) dniOverlay
      ((splitOnComma row.Designator.data).length * b) rfl rfl rfl
    exact ⟨hA, hB⟩
  rw [if_neg hD] at h
  rcases hm : mpnLoop MPN_MAP.length row.LCSC with _ | m <;> rw [hm] at h
  · simp at h
  dsimp only at h
  rcases hs : search_digikey_info (catalog m)
      ((splitOnComma row.Designator.data).length * b) m with e | info <;> rw [hs] at h
  · simp at h
  injection h with h2
  subst h2
  obtain ⟨hqi, hti⟩ := search_fields _ _ _ _ hs
  obtain ⟨hA, hB⟩ := update_finish_fields { initialData row with mpn := some m } info
    ((splitOnComma row.Designator.data).length * b) rfl hti hqi
  exact ⟨hA, hB⟩

/-- The report comparison is transitive. -/
theorem recLE_trans : ∀ (a b c : Record), recLE a b → recLE b c → recLE a c := by
  intro a b c hab hbc
  simp only [recLE, decide_eq_true_eq] at hab hbc ⊢
  exact le_trans hbc hab

/-- The report comparison is total. -/
theorem recLE_total : ∀ (a b : Record), recLE a b || recLE b a := by
  intro a b
  simp only [recLE, Bool.or_eq_true, decide_eq_true_eq]
  exact le_total (sortKey b) (sortKey a)

/-- Stability of the report sort: records with any fixed sort key keep their
input order. -/
theorem filter_key_sortRecords (recs : List Record) (c : ℚ) :
    (sortRecords recs).filter (fun r => decide (sortKey r = c)) =
      recs.filter (fun r => decide (sortKey r = c)) := by
  have hpw : (recs.filter (fun r => decide (sortKey r = c))).Pairwise
      (fun a b => recLE a b = true) := by
    apply List.pairwise_of_forall_mem_list
    intro a ha b hb
    have ha' := (List.mem_filter.mp ha).2
    have hb' := (List.mem_filter.mp hb).2
    simp only [decide_eq_true_eq] at ha' hb'
    simp [recLE, ha', hb']
  have h1 : List.Sublist (recs.filter (fun r => decide (sortKey r = c))) (sortRecords recs) :=
    List.sublist_mergeSort recLE_trans recLE_total hpw (List.filter_sublist recs)
  have h2 := List.Sublist.filter (fun r => decide (sortKey r = c)) h1
  have h3 : (recs.filter (fun r => decide (sortKey r = c))).filter
      (fun r => decide (sortKey r = c)) = recs.filter (fun r => decide (sortKey r = c)) :=
    List.filter_eq_self.mpr (fun a ha => (List.mem_filter.mp ha).2)
  rw [h3] at h2
  have hperm : List.Perm ((sortRecords recs).filter (fun r => decide (sortKey r = c)))
      (recs.filter (fun r => decide (sortKey r = c))) :=
    (List.mergeSort_perm recs recLE).filter _
  exact (h2.eq_of_length hperm.length_eq.symm).symm

/-- Claim C3: `parse_bom` produces exactly one record per BOM line, and the
report lists those records sorted by descending total price, stably (equal
keys keep their relative order) with a missing total price ordered as 0.0. -/
theorem claim_c3 (rows : List BomRow) (catalog : String → SearchResponse) (b : Nat)
    (recs : List Record) (h : parse_bom rows catalog b = .ok recs) :
    recs.length = rows.length ∧
    List.Perm (sortRecords recs) recs ∧
    (sortRecords recs).Pairwise (fun a a2 => sortKey a2 ≤ sortKey a) ∧
    (∀ r : Record, r.total_price = none → sortKey r = 0) ∧
    ∀ c : ℚ, (sortRecords recs).filter (fun r => decide (sortKey r = c)) =
      recs.filter (fun r => decide (sortKey r = c)) := by
  refine ⟨(parse_bom_ok catalog b rows recs h).1, List.mergeSort_perm recs recLE, ?_,
    ?_, fun c => filter_key_sortRecords recs c⟩
  · have hs := List.sorted_mergeSort recLE_trans recLE_total recs
    exact hs.imp (fun hab => by simpa [recLE] using hab)
  · intro r hr
    simp [sortKey, hr]

/-- Claim C4: the grand total equals the sum of the per-line totals (a line
without a price contributing 0.0); each line's total price is its unit price
times its order quantity (designator count times board count); the per-board
price is the grand total divided by the board count. -/
theorem claim_c4 (rows : List BomRow) (catalog : String → SearchResponse) (b : Nat)
    (recs : List Record) (_hb : 0 < b) (h : parse_bom rows catalog b = .ok recs) :
    grandTotal (sortRecords recs) = (recs.map (fun r => r.total_price.getD 0)).sum ∧
    (∀ rec ∈ recs, ∃ row ∈ rows,
      rec.quantity = some (splitOnComma row.Designator.data).length ∧
      rec.total_price = rec.unit_price.map
        (fun u => u * (((splitOnComma row.Designator.data).length * b : Nat) : ℚ))) ∧
    perBoardPrice (grandTotal (sortRecords recs)) b = grandTotal (sortRecords recs) / (b : ℚ) := by
  refine ⟨?_, ?_, rfl⟩
  · unfold grandTotal
    exact ((List.mergeSort_perm recs recLE).map _).sum_eq
  · intro rec hrec
    obtain ⟨row, hrow, hpr⟩ := (parse_bom_ok catalog b rows recs h).2 rec hrec
    exact ⟨row, hrow, parse_bom_row_fields row catalog b rec hpr⟩

example : parse_bom [demoDniRow1, demoDniRow2] (fun _ => ⟨[], []⟩) 1 =
    .ok [demoDniRec1, demoDniRec2] := by decide

/-- Witness for C3 on two concrete DNI rows. -/
theorem claim_c3_witness :
    [demoDniRec1, demoDniRec2].length = [demoDniRow1, demoDniRow2].length ∧
    List.Perm (sortRecords [demoDniRec1, demoDniRec2]) [demoDniRec1, demoDniRec2] ∧
    (sortRecords [demoDniRec1, demoDniRec2]).Pairwise (fun a a2 => sortKey a2 ≤ sortKey a) ∧
    (∀ r : Record, r.total_price = none → sortKey r = 0) ∧
    ∀ c : ℚ, (sortRecords [demoDniRec1, demoDniRec2]).filter (fun r => decide (sortKey r = c)) =
      [demoDniRec1, demoDniRec2].filter (fun r => decide (sortKey r = c)) :=
  claim_c3 [demoDniRow1, demoDniRow2] (fun _ => ⟨[], []⟩) 1 [demoDniRec1, demoDniRec2]
    (by decide)

/-- Witness for C4 on two concrete DNI rows. -/
theorem claim_c4_witness :
    grandTotal (sortRecords [demoDniRec1, demoDniRec2]) =
      ([demoDniRec1, demoDniRec2].map (fun r => r.total_price.getD 0)).sum ∧
    (∀ rec ∈ [demoDniRec1, demoDniRec2], ∃ row ∈ [demoDniRow1, demoDniRow2],
      rec.quantity = some (splitOnComma row.Designator.data).length ∧
      rec.total_price = rec.unit_price.map
        (fun u => u * (((splitOnComma row.Designator.data).length * 1 : Nat) : ℚ))) ∧
    perBoardPrice (grandTotal (sortRecords [demoDniRec1, demoDniRec2])) 1 =
      grandTotal (sortRecords [demoDniRec1, demoDniRec2]) / ((1 : Nat) : ℚ) :=
  claim_c4 [demoDniRow1, demoDniRow2] (fun _ => ⟨[], []⟩) 1 [demoDniRec1, demoDniRec2]
    (by norm_num) (by decide)

/-- After replacement no invalid character remains. -/
theorem mem_replaceInvalid (l : List Char) (c : Char) (h : c ∈ replaceInvalid l) :
    c ∉ invalidChars := by
  unfold replaceInvalid at h
  obtain ⟨a, _, rfl⟩ := List.mem_map.mp h
  by_cases ha : a ∈ invalidChars
  · rw [if_pos ha]
    decide
  · rw [if_neg ha]
    exact ha

/-- Unfolding equation of `collapseUnderscores` on two-or-more elements. -/
theorem collapse_cons2 (a b : Char) (t : List Char) :
    collapseUnderscores (a :: b :: t) =
      if (a == '_' && b == '_') = true then collapseUnderscores (b :: t)
      else a :: collapseUnderscores (b :: t) := rfl

/-- Collapsing runs of underscores preserves the first character. -/
theorem collapse_head (l : List Char) : (collapseUnderscores l).head? = l.head? := by
  induction l with
  | nil => rfl
  | cons a rest ih =>
    rcases rest with _ | ⟨b, t⟩
    · rfl
    · by_cases hab : (a == '_' && b == '_') = true
      · have hab' := Bool.and_eq_true_iff.mp hab
        have ha : a = '_' := by simpa using hab'.1
        have hb : b = '_' := by simpa using hab'.2
        rw [collapse_cons2, if_pos hab, ih]
        simp [ha, hb]
      · rw [collapse_cons2, if_neg hab]
        rfl

/-- After collapsing, no two adjacent underscores remain. -/
theorem chain'_collapse (l : List Char) :
    (collapseUnderscores l).Chain' (fun a b => ¬(a = '_' ∧ b = '_')) := by
  induction l with
  | nil => simp [collapseUnderscores]
  | cons a rest ih =>
    rcases rest with _ | ⟨b, t⟩
    · simp [collapseUnderscores]
    · by_cases hab : (a == '_' && b == '_') = true
      · rw [collapse_cons2, if_pos hab]
        exact ih
      · rw [collapse_cons2, if_neg hab]
        rw [List.chain'_cons']
        refine ⟨?_, ih⟩
        intro y hy
        rw [collapse_head (b :: t)] at hy
        simp only [List.head?_cons, Option.mem_def, Option.some.injEq] at hy
        subst hy
        intro hcon
        apply hab
        simp [hcon.1, hcon.2]

/-- Collapsing is the identity on lists without adjacent underscores. -/
theorem collapse_eq_self (l : List Char)
    (h : l.Chain' (fun a b => ¬(a = '_' ∧ b = '_'))) : collapseUnderscores l = l := by
  induction l with
  | nil => rfl
  | cons a rest ih =>
    rcases rest with _ | ⟨b, t⟩
    · rfl
    · have hab : ¬(a = '_' ∧ b = '_') := (List.chain'_cons.mp h).1
      have hcond : ¬((a == '_' && b == '_') = true) := by
        intro hc
        have hc' := Bool.and_eq_true_iff.mp hc
        exact hab ⟨by simpa using hc'.1, by simpa using hc'.2⟩
      rw [collapse_cons2, if_neg hcond, ih (List.chain'_cons.mp h).2]

/-- Collapsing introduces no new characters. -/
theorem mem_collapse (l : List Char) (c : Char) (h : c ∈ collapseUnderscores l) : c ∈ l := by
  induction l with
  | nil => simp [collapseUnderscores] at h
  | cons a rest ih =>
    rcases rest with _ | ⟨b, t⟩
    · simpa [collapseUnderscores] using h
    · by_cases hab : (a == '_' && b == '_') = true
      · rw [collapse_cons2, if_pos hab] at h
        exact List.mem_cons_of_mem _ (ih h)
      · rw [collapse_cons2, if_neg hab] at h
        rcases List.mem_cons.mp h with rfl | h'
        · exact List.mem_cons_self _ _
        · exact List.mem_cons_of_mem _ (ih h')

/-- The head surviving a `dropWhile` fails the predicate. -/
theorem head_dropWhile_not (p : Char → Bool) (l : List Char) (a : Char)
    (h : (l.dropWhile p).head? = some a) : p a = false := by
  induction l with
  | nil => simp at h
  | cons c t ih =>
    by_cases hc : p c = true
    · rw [List.dropWhile_cons_of_pos hc] at h
      exact ih h
    · rw [List.dropWhile_cons_of_neg hc] at h
      simp only [List.head?_cons, Option.some.injEq] at h
      subst h
      simpa using hc

/-- A stripped list does not end with an underscore. -/
theorem strip_getLast (l : List Char) (a : Char)
    (h : (stripUnderscores l).getLast? = some a) : a ≠ '_' := by
  unfold stripUnderscores at h
  rw [List.getLast?_reverse] at h
  have := head_dropWhile_not _ _ _ h
  intro hcon
  subst hcon
  simp at this

/-- A stripped list does not start with an underscore. -/
theorem strip_head (l : List Char) (a : Char)
    (h : (stripUnderscores l).head? = some a) : a ≠ '_' := by
  unfold stripUnderscores at h
  rw [List.head?_reverse] at h
  rcases hz : (l.dropWhile (fun c => c == '_')).reverse.dropWhile (fun c => c == '_')
      with _ | ⟨z, zs⟩
  · rw [hz] at h
    simp at h
  · rw [hz] at h
    obtain ⟨pre, hpre⟩ : List.IsSuffix (z :: zs) (l.dropWhile (fun c => c == '_')).reverse := by
      rw [← hz]
      exact List.dropWhile_suffix _
    have hlast : ((l.dropWhile (fun c => c == '_')).reverse).getLast? = some a := by
      rw [← hpre, List.getLast?_append]
      rw [h]
      rfl
    rw [List.getLast?_reverse] at hlast
    have := head_dropWhile_not _ _ _ hlast
    intro hcon
    subst hcon
    simp at this

/-- The no-adjacent-underscores property is preserved by reversal. -/
theorem chain'_reverse_symm (l : List Char)
    (h : l.Chain' (fun a b => ¬(a = '_' ∧ b = '_'))) :
    l.reverse.Chain' (fun a b => ¬(a = '_' ∧ b = '_')) := by
  rw [List.chain'_reverse]
  refine h.imp ?_
  intro a b hab
  intro hcon
  exact hab ⟨hcon.2, hcon.1⟩

/-- Stripping preserves the no-adjacent-underscores property. -/
theorem chain'_strip (l : List Char)
    (h : l.Chain' (fun a b => ¬(a = '_' ∧ b = '_'))) :
    (stripUnderscores l).Chain' (fun a b => ¬(a = '_' ∧ b = '_')) := by
  unfold stripUnderscores
  apply chain'_reverse_symm
  have h1 : (l.dropWhile (fun c => c == '_')).Chain' (fun a b => ¬(a = '_' ∧ b = '_')) :=
    List.Chain'.suffix h ( List.dropWhile_suffix _)
  have h2 := chain'_reverse_symm _ h1
  exact List.Chain'.suffix h2 ( List.dropWhile_suffix _)

/-- Stripping introduces no new characters. -/
theorem mem_strip (l : List Char) (c : Char) (h : c ∈ stripUnderscores l) : c ∈ l := by
  unfold stripUnderscores at h
  rw [List.mem_reverse] at h
  have h1 : c ∈ (l.dropWhile (fun c => c == '_')).reverse :=
    List.Sublist.mem h (List.dropWhile_sublist _)
  rw [List.mem_reverse] at h1
  exact List.Sublist.mem h1 (List.dropWhile_sublist _)

/-- A `dropWhile` whose head fails the predicate is the identity. -/
theorem dropWhile_eq_self_of_head (p : Char → Bool) (l : List Char)
    (h : ∀ a, l.head? = some a → p a = false) : l.dropWhile p = l := by
  cases l with
  | nil => rfl
  | cons c t =>
    have hc : p c = false := h c rfl
    rw [List.dropWhile_cons_of_neg (by simp [hc])]

/-- Stripping is the identity when neither end is an underscore. -/
theorem strip_eq_self (l : List Char)
    (hh : ∀ a, l.head? = some a → a ≠ '_')
    (hl : ∀ a, l.getLast? = some a → a ≠ '_') : stripUnderscores l = l := by
  unfold stripUnderscores
  rw [dropWhile_eq_self_of_head (fun c => c == '_') l (fun a ha => by
    simpa using hh a ha)]
  rw [dropWhile_eq_self_of_head (fun c => c == '_') l.reverse (fun a ha => by
    rw [List.head?_reverse] at ha
    simpa using hl a ha)]
  exact List.reverse_reverse l

/-- Replacement is the identity on lists without invalid characters. -/
theorem replaceInvalid_eq_self (l : List Char) (h : ∀ c ∈ l, c ∉ invalidChars) :
    replaceInvalid l = l := by
  induction l with
  | nil => rfl
  | cons c t ih =>
    simp only [replaceInvalid, List.map_cons]
    rw [if_neg (h c (List.mem_cons_self _ _))]
    have := ih (fun x hx => h x (List.mem_cons_of_mem _ hx))
    unfold replaceInvalid at this
    rw [this]

/-- Claim C10: `normalize_filename` is idempotent, and its output contains no
invalid filename character, no doubled underscore, and no leading or trailing
underscore. -/
theorem claim_c10 (s : String) :
    normalize_filename (normalize_filename s) = normalize_filename s ∧
    (∀ c ∈ (normalize_filename s).data, c ∉ invalidChars) ∧
    ¬ ['_', '_'] <:+: (normalize_filename s).data ∧
    (normalize_filename s).data.head? ≠ some '_' ∧
    (normalize_filename s).data.getLast? ≠ some '_' := by
  have hdata : (normalize_filename s).data =
      stripUnderscores (collapseUnderscores (replaceInvalid s.data)) := rfl
  have hmem : ∀ c ∈ (normalize_filename s).data, c ∉ invalidChars := by
    intro c hc
    rw [hdata] at hc
    exact mem_replaceInvalid _ _ (mem_collapse _ _ (mem_strip _ _ hc))
  have hchain : (normalize_filename s).data.Chain' (fun a b => ¬(a = '_' ∧ b = '_')) := by
    rw [hdata]
    exact chain'_strip _ (chain'_collapse _)
  have hhead : (normalize_filename s).data.head? ≠ some '_' := by
    intro hc
    rw [hdata] at hc
    exact strip_head _ _ hc rfl
  have hlast : (normalize_filename s).data.getLast? ≠ some '_' := by
    intro hc
    rw [hdata] at hc
    exact strip_getLast _ _ hc rfl
  refine ⟨?_, hmem, ?_, hhead, hlast⟩
  · have h1 : replaceInvalid (normalize_filename s).data = (normalize_filename s).data :=
      replaceInvalid_eq_self _ hmem
    have h2 : collapseUnderscores (normalize_filename s).data = (normalize_filename s).data :=
      collapse_eq_self _ hchain
    have h3 : stripUnderscores (normalize_filename s).data = (normalize_filename s).data :=
      strip_eq_self _
        (fun a ha => by
          intro hcon
          subst hcon
          exact hhead ha)
        (fun a ha => by
          intro hcon
          subst hcon
          exact hlast ha)
    show String.mk (stripUnderscores (collapseUnderscores
      (replaceInvalid (normalize_filename s).data))) = normalize_filename s
    rw [h1, h2, h3]
  · intro hinf
    have hpair := List.Chain'.infix hchain hinf
    rw [List.chain'_pair] at hpair
    exact hpair ⟨rfl, rfl⟩

/-- Witness for C10 on a concrete name. -/
theorem claim_c10_witness :
    normalize_filename (normalize_filename "a//b,,c_") = normalize_filename "a//b,,c_" ∧
    normalize_filename "a//b,,c_" = "a_b_c" :=
  ⟨(claim_c10 "a//b,,c_").1, by decide⟩
